import Mathlib

/-!
Shallow embedding of `build/analyze_stimuli.py` (energy framer, speech
boundary detector, batch pipeline) and proofs about the claims of the
specification.

Conventions of the embedding:
* audio samples and energy values are exact rationals (`ℚ`); decibel values
  live in `ℝ` because they go through `log10`;
* Python's `round` (banker's rounding) is `roundHalfEven`;
* `np.convolve(a, v, mode='valid')` is `convValid`, including numpy's
  behaviour of swapping the arguments when the first is shorter, and the
  `ValueError` it raises on an empty input is modelled by the `Option`
  result of `rolling_energy_db`;
* exceptions of the per-file pipeline loop body are modelled with `Except`
  for the decoder and with the `Option` result of `rolling_energy_db` for
  the framing step.
-/

namespace AnalyzeStimuli

/-- Python's `round` on a rational: round half to even (banker's rounding),
as used by `int(round(sample_rate * frame_ms / 1000.0))`. -/
def roundHalfEven (q : ℚ) : ℤ :=
  if q - Int.floor q < 1/2 then Int.floor q
  else if 1/2 < q - Int.floor q then Int.floor q + 1
  else if Int.floor q % 2 = 0 then Int.floor q else Int.floor q + 1

/-- Frame length in samples: `max(1, int(round(sample_rate * frame_ms / 1000.0)))`
from `rolling_energy_db`. -/
def frame_length_of (sample_rate : ℕ) (frame_ms : ℚ) : ℕ :=
  max 1 (roundHalfEven ((sample_rate : ℚ) * frame_ms / 1000)).toNat

/-- Full discrete convolution `(a * v)[t] = Σ_i a[i] v[t - i]`, the
mathematical operation underlying `np.convolve`. Out-of-range indices
contribute `0`. -/
def convFull (a v : List ℚ) : List ℚ :=
  (List.range (a.length + v.length - 1)).map
    (fun t => ((List.range (t + 1)).map (fun i => a.getD i 0 * v.getD (t - i) 0)).sum)

/-- The `mode='valid'` part of `np.convolve a v`: the central entries of the
full convolution where the shorter sequence overlaps the longer one
completely.  Its length is `max(M,N) - min(M,N) + 1` (numpy swaps the
arguments when `a` is shorter than `v`). -/
def convValid (a v : List ℚ) : List ℚ :=
  ((convFull a v).drop (min a.length v.length - 1)).take
    (max a.length v.length - min a.length v.length + 1)

/-- Linear-power part of `rolling_energy_db`:
`np.convolve(np.square(signal), np.ones(frame_length)/frame_length, mode='valid')`. -/
def rolling_energy (signal : List ℚ) (frame_length : ℕ) : List ℚ :=
  convValid (signal.map (fun x => x * x)) (List.replicate frame_length ((frame_length : ℚ))⁻¹)

/-- Decibel conversion of one windowed mean-square power:
`10.0 * np.log10(np.maximum(energy, 1e-12))`. -/
noncomputable def toDb (e : ℚ) : ℝ := 10 * Real.logb 10 (max (e : ℝ) (1 / 10 ^ 12))

/-- The function `rolling_energy_db(signal, sample_rate, frame_ms)` of the
source: returns the decibel energy profile together with the frame length.
`np.convolve` raises `ValueError` on an empty input array, which the
embedding models as `none`. -/
noncomputable def rolling_energy_db (signal : List ℚ) (sample_rate : ℕ) (frame_ms : ℚ) :
    Option (List ℝ × ℕ) :=
  match signal with
  | [] => none
  | _ :: _ =>
    some ((rolling_energy signal (frame_length_of sample_rate frame_ms)).map toDb,
      frame_length_of sample_rate frame_ms)

/-- The inner `while run_start > 0 and above[run_start - 1]: run_start -= 1`
loop of `detect_speech_end`: the start index of the contiguous run of
above-threshold frames that ends at the given index. -/
def runStart (a : ℕ → Bool) : ℕ → ℕ
  | 0 => 0
  | s + 1 => if a s = true then runStart a s else s + 1

theorem runStart_le (a : ℕ → Bool) (i : ℕ) : runStart a i ≤ i := by
  induction i with
  | zero => simp [runStart]
  | succ s ih =>
    simp only [runStart]
    split
    · exact Nat.le_succ_of_le ih
    · exact Nat.le_refl (s + 1)

/-- The outer `while i >= 0` reverse scan of `detect_speech_end`, expressed
with the scan index shifted by one (the argument `k` stands for the scan
index `i = k - 1`, so `0` means the scan has run past the start).  Returns
the frame index `run_end` of the accepted run, if any. -/
def detectLoop (a : ℕ → Bool) (mf : ℕ) : ℕ → Option ℕ
  | 0 => none
  | k + 1 =>
    if a k = true then
      if mf ≤ k - runStart a k + 1 then some k
      else detectLoop a mf (runStart a k)
    else detectLoop a mf k
termination_by k => k
decreasing_by
all_goals first
| exact Nat.lt_succ_of_le (runStart_le _ _)
| exact Nat.lt_succ_self _

theorem detectLoop_zero (a : ℕ → Bool) (mf : ℕ) : detectLoop a mf 0 = none := by
  simp [detectLoop]

theorem detectLoop_succ (a : ℕ → Bool) (mf k : ℕ) :
    detectLoop a mf (k + 1) =
      if a k = true then
        if mf ≤ k - runStart a k + 1 then some k
        else detectLoop a mf (runStart a k)
      else detectLoop a mf k := by
  rw [detectLoop]

/-- Frame classification `above = energy_db > threshold_db` of
`detect_speech_end`, as an indexed predicate; indices outside the profile
classify as not-speech. -/
def aboveFn {α : Type} [LinearOrder α] (energy_db : List α) (threshold_db : α) (j : ℕ) : Bool :=
  decide (threshold_db < energy_db.getD j threshold_db)

/-- The function `detect_speech_end(energy_db, sample_rate, frame_length,
threshold_db, min_frames)` of the source: reverse scan from the end for the
last run of at least `min_frames` consecutive above-threshold frames;
returns the end time in milliseconds, or `none` if no speech is found. -/
def detect_speech_end {α : Type} [LinearOrder α] (energy_db : List α) (sample_rate : ℚ)
    (frame_length : ℕ) (threshold_db : α) (min_frames : ℕ) : Option ℚ :=
  if energy_db.length < min_frames then none
  else
    match detectLoop (aboveFn energy_db threshold_db) min_frames energy_db.length with
    | some run_end => some (((run_end + frame_length : ℕ) : ℚ) / sample_rate * 1000)
    | none => none

/-- One iteration of the reverse scan, as a step on the (integer-valued)
scan index: skip one frame below threshold, or jump to just before the
start of the run that was just examined. -/
def scanNext (a : ℕ → Bool) (i : ℕ) : ℤ :=
  if a i = true then (runStart a i : ℤ) - 1 else (i : ℤ) - 1

/-- Whether frame `j` is the place where the scan may stop: it is above
threshold and the contiguous run ending at `j` has at least `mf` frames. -/
def qualb (a : ℕ → Bool) (mf j : ℕ) : Bool :=
  a j && decide (mf ≤ j - runStart a j + 1)

/-- Python's `round(x, 1)`: banker's rounding to one decimal place, used for
the recorded durations. -/
def round1 (q : ℚ) : ℚ := (roundHalfEven (q * 10) : ℚ) / 10

/-- Loop body of `main` for one stimulus file, with the decoder modelled as
an `Except` input.  Mirrors the `try`/`except` block: a decode failure or a
framing failure (empty signal) appends an error entry and leaves the
durations untouched; a detector miss falls back to the full duration and
appends a warning; otherwise the rounded end time is recorded. -/
noncomputable def processStimulus (key : String) (decoded : Except String (List ℚ × ℕ))
    (durations : List (String × ℚ)) (errors : List String) :
    List (String × ℚ) × List String :=
  match decoded with
  | Except.error e => (durations, errors ++ [key ++ ": " ++ e])
  | Except.ok (samples, sr) =>
    match rolling_energy_db samples sr 10 with
    | none => (durations, errors ++ [key ++ ": " ++ "v cannot be empty"])
    | some (energy_db, fl) =>
      match detect_speech_end energy_db (sr : ℚ) fl (-40 : ℝ) 4 with
      | none =>
          (durations ++ [(key, round1 ((samples.length : ℚ) / (sr : ℚ) * 1000))],
            errors ++ [key ++ ": no speech detected"])
      | some end_ms => (durations ++ [(key, round1 end_ms)], errors)

/-- Durations appended by one stimulus, as a function of that stimulus alone. -/
noncomputable def itemDur (key : String) (decoded : Except String (List ℚ × ℕ)) :
    List (String × ℚ) :=
  (processStimulus key decoded [] []).1

/-- Error entries appended by one stimulus, as a function of that stimulus alone. -/
noncomputable def itemErrs (key : String) (decoded : Except String (List ℚ × ℕ)) :
    List String :=
  (processStimulus key decoded [] []).2

/-- Folding step of the corpus loop of `main`. -/
noncomputable def pipeStep (acc : List (String × ℚ) × List String)
    (item : String × Except String (List ℚ × ℕ)) : List (String × ℚ) × List String :=
  processStimulus item.1 item.2 acc.1 acc.2

/-- The corpus loop of `main`: process every stimulus in order, accumulating
the durations mapping and the warnings/errors list. -/
noncomputable def runPipeline (items : List (String × Except String (List ℚ × ℕ))) :
    List (String × ℚ) × List String :=
  items.foldl pipeStep ([], [])

/-! Properties of the run-start computation. -/

theorem runStart_run_true (a : ℕ → Bool) :
    ∀ i j, runStart a i ≤ j → j < i → a j = true := by
  intro i
  induction i with
  | zero => intro j h1 h2; omega
  | succ s ih =>
    intro j h1 h2
    by_cases ha : a s = true
    · have hrs : runStart a (s + 1) = runStart a s := by simp [runStart, ha]
      rw [hrs] at h1
      rcases Nat.lt_succ_iff_lt_or_eq.mp h2 with h | h
      · exact ih j h1 h
      · subst h; exact ha
    · have hrs : runStart a (s + 1) = s + 1 := by simp [runStart, ha]
      omega

theorem runStart_eq_of_mem (a : ℕ → Bool) :
    ∀ i j, runStart a i ≤ j → j ≤ i → runStart a j = runStart a i := by
  intro i
  induction i with
  | zero =>
    intro j _ h2
    have : j = 0 := by omega
    subst this; rfl
  | succ s ih =>
    intro j h1 h2
    by_cases ha : a s = true
    · have hrs : runStart a (s + 1) = runStart a s := by simp [runStart, ha]
      rw [hrs] at h1 ⊢
      rcases Nat.le_succ_iff_eq_or_le.mp h2 with h | h
      · subst h; rw [← hrs]
      · exact ih j h1 h
    · have hrs : runStart a (s + 1) = s + 1 := by simp [runStart, ha]
      rw [hrs] at h1
      have : j = s + 1 := by omega
      subst this; rfl

theorem runStart_eq_run (a : ℕ → Bool) (s : ℕ) (hb : s = 0 ∨ a (s - 1) = false) :
    ∀ i, s ≤ i → (∀ j, j < i → s ≤ j → a j = true) → runStart a i = s := by
  intro i
  induction i with
  | zero =>
    intro hs _
    have : s = 0 := by omega
    simp [runStart, this]
  | succ t ih =>
    intro hs hrun
    by_cases hst : s = t + 1
    · have hat : a t = false := by
        rcases hb with h0 | hf
        · omega
        · have : s - 1 = t := by omega
          rw [← this]; exact hf
      simp [runStart, hat, hst]
    · have hs' : s ≤ t := by omega
      have hat : a t = true := hrun t (Nat.lt_succ_self t) hs'
      have hstep : runStart a (t + 1) = runStart a t := by simp [runStart, hat]
      rw [hstep]
      exact ih hs' (fun j hj hsj => hrun j (by omega) hsj)

theorem runStart_congr (a b : ℕ → Bool) (h : ∀ j, a j = b j) :
    ∀ i, runStart a i = runStart b i := by
  intro i
  induction i with
  | zero => rfl
  | succ s ih => simp only [runStart, h s, ih]

/-! Properties of the reverse scan. -/

theorem detectLoop_congr (a b : ℕ → Bool) (h : ∀ j, a j = b j) (mf : ℕ) :
    ∀ k, detectLoop a mf k = detectLoop b mf k := by
  intro k
  induction k using Nat.strong_induction_on with
  | _ k ih =>
    match k with
    | 0 => rw [detectLoop_zero, detectLoop_zero]
    | k + 1 =>
      rw [detectLoop_succ, detectLoop_succ, h k, runStart_congr a b h k]
      by_cases hb : b k = true
      · rw [if_pos hb, if_pos hb]
        by_cases hl : mf ≤ k - runStart b k + 1
        · rw [if_pos hl, if_pos hl]
        · rw [if_neg hl, if_neg hl]
          exact ih (runStart b k) (Nat.lt_succ_of_le (runStart_le b k))
      · rw [if_neg hb, if_neg hb]
        exact ih k (Nat.lt_succ_self k)

theorem detectLoop_none (a : ℕ → Bool) (mf : ℕ) :
    ∀ k, (∀ j, j < k → a j = false) → detectLoop a mf k = none := by
  intro k
  induction k using Nat.strong_induction_on with
  | _ k ih =>
    match k with
    | 0 => intro _; exact detectLoop_zero a mf
    | k + 1 =>
      intro h
      rw [detectLoop_succ]
      have ha : ¬ (a k = true) := by simp [h k (Nat.lt_succ_self k)]
      rw [if_neg ha]
      exact ih k (Nat.lt_succ_self k) (fun j hj => h j (by omega))

theorem detectLoop_some_lt (a : ℕ → Bool) (mf : ℕ) :
    ∀ k j, detectLoop a mf k = some j → j < k ∧ a j = true := by
  intro k
  induction k using Nat.strong_induction_on with
  | _ k ih =>
    match k with
    | 0 => intro j h; rw [detectLoop_zero] at h; cases h
    | k + 1 =>
      intro j h
      rw [detectLoop_succ] at h
      by_cases ha : a k = true
      · rw [if_pos ha] at h
        by_cases hl : mf ≤ k - runStart a k + 1
        · rw [if_pos hl] at h
          have : j = k := by injection h with h; omega
          subst this
          exact ⟨Nat.lt_succ_self _, ha⟩
        · rw [if_neg hl] at h
          have hrs := runStart_le a k
          have := ih (runStart a k) (Nat.lt_succ_of_le hrs) j h
          exact ⟨by omega, this.2⟩
      · rw [if_neg ha] at h
        have := ih k (Nat.lt_succ_self k) j h
        exact ⟨by omega, this.2⟩

theorem detectLoop_find (a : ℕ → Bool) (mf : ℕ) :
    ∀ k j, j < k → qualb a mf j = true →
      (∀ j2, j2 < k → j < j2 → qualb a mf j2 = false) →
      detectLoop a mf k = some j := by
  intro k
  induction k using Nat.strong_induction_on with
  | _ k ih =>
    match k with
    | 0 => intro j hj; omega
    | k + 1 =>
      intro j hj hq hmax
      have hq' : a j = true ∧ mf ≤ j - runStart a j + 1 := by
        simpa [qualb] using hq
      rw [detectLoop_succ]
      by_cases ha : a k = true
      · rw [if_pos ha]
        by_cases hl : mf ≤ k - runStart a k + 1
        · rw [if_pos hl]
          have hjk : j = k := by
            by_contra hne
            have hjlt : j < k := by omega
            have := hmax k (Nat.lt_succ_self k) hjlt
            simp [qualb, ha, hl] at this
          rw [hjk]
        · rw [if_neg hl]
          have hjk : j ≠ k := by
            intro he
            subst he
            exact hl hq'.2
          have hjlt : j < k := by omega
          have hjrs : j < runStart a k := by
            by_contra hge
            push_neg at hge
            have hrsj : runStart a j = runStart a k :=
              runStart_eq_of_mem a k j hge (le_of_lt hjlt)
            have h1 : mf ≤ j - runStart a j + 1 := hq'.2
            rw [hrsj] at h1
            have h2 : runStart a k ≤ j := hge
            omega
          exact ih (runStart a k) (Nat.lt_succ_of_le (runStart_le a k)) j hjrs hq
            (fun j2 h2 hj2 => hmax j2 (by have := runStart_le a k; omega) hj2)
      · rw [if_neg ha]
        have hjk : j ≠ k := by
          intro he; subst he; exact ha hq'.1
        exact ih k (Nat.lt_succ_self k) j (by omega) hq
          (fun j2 h2 hj2 => hmax j2 (by omega) hj2)

/-! Glue between the scan and `detect_speech_end`. -/

theorem detect_eq_some {α : Type} [LinearOrder α] (energy_db : List α) (sample_rate : ℚ)
    (frame_length : ℕ) (threshold_db : α) (min_frames j : ℕ)
    (hguard : min_frames ≤ energy_db.length)
    (hloop : detectLoop (aboveFn energy_db threshold_db) min_frames energy_db.length = some j) :
    detect_speech_end energy_db sample_rate frame_length threshold_db min_frames
      = some (((j + frame_length : ℕ) : ℚ) / sample_rate * 1000) := by
  unfold detect_speech_end
  rw [if_neg (Nat.not_lt.mpr hguard), hloop]

theorem detect_eq_none_of_loop {α : Type} [LinearOrder α] (energy_db : List α)
    (sample_rate : ℚ) (frame_length : ℕ) (threshold_db : α) (min_frames : ℕ)
    (hloop : detectLoop (aboveFn energy_db threshold_db) min_frames energy_db.length = none) :
    detect_speech_end energy_db sample_rate frame_length threshold_db min_frames = none := by
  unfold detect_speech_end
  by_cases hg : energy_db.length < min_frames
  · rw [if_pos hg]
  · rw [if_neg hg, hloop]

theorem detect_some_inv {α : Type} [LinearOrder α] (energy_db : List α) (sample_rate : ℚ)
    (frame_length : ℕ) (threshold_db : α) (min_frames : ℕ) (ms : ℚ)
    (h : detect_speech_end energy_db sample_rate frame_length threshold_db min_frames
      = some ms) :
    ∃ j, j < energy_db.length ∧
      ms = ((j + frame_length : ℕ) : ℚ) / sample_rate * 1000 := by
  unfold detect_speech_end at h
  by_cases hg : energy_db.length < min_frames
  · rw [if_pos hg] at h; cases h
  · rw [if_neg hg] at h
    cases hloop : detectLoop (aboveFn energy_db threshold_db) min_frames energy_db.length with
    | none => rw [hloop] at h; cases h
    | some j =>
      rw [hloop] at h
      injection h with h
      exact ⟨j, (detectLoop_some_lt _ _ _ _ hloop).1, h.symm⟩

/-! Properties of the energy framer. -/

theorem frame_length_of_pos (sample_rate : ℕ) (frame_ms : ℚ) :
    1 ≤ frame_length_of sample_rate frame_ms :=
  le_max_left 1 _

theorem convValid_length (a v : List ℚ) (ha : a ≠ []) (hv : v ≠ []) :
    (convValid a v).length = max a.length v.length - min a.length v.length + 1 := by
  have ha' : 1 ≤ a.length := List.length_pos.mpr ha
  have hv' : 1 ≤ v.length := List.length_pos.mpr hv
  simp only [convValid, convFull, List.length_take, List.length_drop, List.length_map,
    List.length_range]
  omega

theorem rolling_energy_length (signal : List ℚ) (fl : ℕ) (hs : signal ≠ []) (hfl : 1 ≤ fl) :
    (rolling_energy signal fl).length = max signal.length fl - min signal.length fl + 1 := by
  unfold rolling_energy
  rw [convValid_length]
  · simp
  · simpa using hs
  · have : (List.replicate fl ((fl : ℚ))⁻¹).length = fl := List.length_replicate fl _
    intro hnil
    rw [hnil] at this
    simp at this
    omega

theorem rolling_energy_db_some (signal : List ℚ) (sample_rate : ℕ) (frame_ms : ℚ)
    (p : List ℝ) (fl : ℕ)
    (h : rolling_energy_db signal sample_rate frame_ms = some (p, fl)) :
    signal ≠ [] ∧ fl = frame_length_of sample_rate frame_ms ∧
      p = (rolling_energy signal fl).map toDb := by
  cases signal with
  | nil => simp [rolling_energy_db] at h
  | cons x xs =>
    simp only [rolling_energy_db, Option.some.injEq, Prod.mk.injEq] at h
    refine ⟨by simp, h.2.symm, ?_⟩
    rw [← h.2]
    exact h.1.symm

/-! Properties of the decibel conversion. -/

theorem logb_ten_inv_pow (n : ℕ) : Real.logb 10 (1 / 10 ^ n) = -(n : ℝ) := by
  have hlog : Real.log 10 ≠ 0 :=
    ne_of_gt (Real.log_pos (by norm_num))
  rw [Real.logb, one_div, Real.log_inv, Real.log_pow]
  field_simp

theorem toDb_gt_neg40 (e : ℚ) (he : (1 : ℝ) / 10 ^ 4 < (e : ℝ)) : (-40 : ℝ) < toDb e := by
  have hM : (1 : ℝ) / 10 ^ 4 < max (e : ℝ) (1 / 10 ^ 12) :=
    lt_of_lt_of_le he (le_max_left _ _)
  have hlb : Real.logb 10 (1 / 10 ^ 4) < Real.logb 10 (max (e : ℝ) (1 / 10 ^ 12)) :=
    Real.logb_lt_logb (by norm_num) (by norm_num) hM
  rw [logb_ten_inv_pow 4] at hlb
  unfold toDb
  push_cast at hlb
  linarith

theorem toDb_le_neg40 (e : ℚ) (he : (e : ℝ) ≤ 1 / 10 ^ 4) : ¬ ((-40 : ℝ) < toDb e) := by
  have hM0 : (0 : ℝ) < max (e : ℝ) (1 / 10 ^ 12) :=
    lt_of_lt_of_le (by norm_num) (le_max_right _ _)
  have hM : max (e : ℝ) (1 / 10 ^ 12) ≤ 1 / 10 ^ 4 := max_le he (by norm_num)
  have hlb : Real.logb 10 (max (e : ℝ) (1 / 10 ^ 12)) ≤ Real.logb 10 (1 / 10 ^ 4) :=
    Real.logb_le_logb_of_le (by norm_num) hM0 hM
  rw [logb_ten_inv_pow 4] at hlb
  unfold toDb
  push_cast at hlb
  intro h
  linarith

/-! Properties of the frame classification. -/

theorem aboveFn_out_of_range {α : Type} [LinearOrder α] (energy_db : List α)
    (threshold_db : α) (j : ℕ) (h : energy_db.length ≤ j) :
    aboveFn energy_db threshold_db j = false := by
  unfold aboveFn
  rw [List.getD_eq_default _ _ h]
  simp

theorem aboveFn_all_false {α : Type} [LinearOrder α] (energy_db : List α)
    (threshold_db : α) (h : ∀ e ∈ energy_db, e ≤ threshold_db) (j : ℕ) :
    aboveFn energy_db threshold_db j = false := by
  by_cases hj : j < energy_db.length
  · unfold aboveFn
    rw [List.getD_eq_getElem _ _ hj]
    simp only [decide_eq_false_iff_not, not_lt]
    exact h _ (List.getElem_mem hj)
  · exact aboveFn_out_of_range _ _ _ (by omega)

/-! Decomposition of the pipeline loop body. -/

theorem processStimulus_split (key : String) (decoded : Except String (List ℚ × ℕ))
    (d : List (String × ℚ)) (e : List String) :
    processStimulus key decoded d e = (d ++ itemDur key decoded, e ++ itemErrs key decoded) := by
  cases decoded with
  | error msg => simp [processStimulus, itemDur, itemErrs]
  | ok pair =>
    obtain ⟨samples, sr⟩ := pair
    cases hR : rolling_energy_db samples sr 10 with
    | none => simp [processStimulus, itemDur, itemErrs, hR]
    | some pr =>
      obtain ⟨p, fl⟩ := pr
      cases hD : detect_speech_end p (sr : ℚ) fl (-40 : ℝ) 4 with
      | none => simp [processStimulus, itemDur, itemErrs, hR, hD]
      | some ms => simp [processStimulus, itemDur, itemErrs, hR, hD]

theorem pipeStep_split (acc : List (String × ℚ) × List String)
    (item : String × Except String (List ℚ × ℕ)) :
    pipeStep acc item = (acc.1 ++ itemDur item.1 item.2, acc.2 ++ itemErrs item.1 item.2) := by
  unfold pipeStep
  exact processStimulus_split item.1 item.2 acc.1 acc.2

theorem foldl_pipeStep_append (items : List (String × Except String (List ℚ × ℕ))) :
    ∀ d e, items.foldl pipeStep (d, e)
      = (d ++ (items.foldl pipeStep ([], [])).1, e ++ (items.foldl pipeStep ([], [])).2) := by
  induction items with
  | nil => intro d e; simp
  | cons it rest ih =>
    intro d e
    rw [List.foldl_cons, List.foldl_cons, pipeStep_split, pipeStep_split]
    simp only [List.nil_append]
    rw [ih (d ++ itemDur it.1 it.2) (e ++ itemErrs it.1 it.2),
      ih (itemDur it.1 it.2) (itemErrs it.1 it.2)]
    simp [List.append_assoc]

/-! Claims about the speech boundary detector. -/

/-- C5: in `detect_speech_end` a frame is classified as speech if and only if
its energy in dB is strictly greater than `threshold_db`; a frame whose
energy equals the threshold exactly is classified as not-speech. -/
theorem c5_strict_threshold {α : Type} [LinearOrder α] (energy_db : List α) (threshold_db : α)
    (j : ℕ) (hj : j < energy_db.length) :
    (aboveFn energy_db threshold_db j = true ↔ threshold_db < energy_db.getD j threshold_db) ∧
    (energy_db.getD j threshold_db = threshold_db → aboveFn energy_db threshold_db j = false) := by
  constructor
  · simp [aboveFn]
  · intro he
    unfold aboveFn
    rw [he]
    simp

/-- Witness for C5 at a one-frame profile sitting exactly on the threshold. -/
theorem c5_strict_threshold_witness :
    (aboveFn [(-40 : ℚ)] (-40) 0 = true ↔ (-40 : ℚ) < [(-40 : ℚ)].getD 0 (-40)) ∧
    ([(-40 : ℚ)].getD 0 (-40) = (-40 : ℚ) → aboveFn [(-40 : ℚ)] (-40) 0 = false) :=
  c5_strict_threshold [(-40 : ℚ)] (-40) 0 (by decide)

/-- C6: if every frame of the profile is at or below the threshold, the
detector returns "not found", whatever the profile's length. -/
theorem c6_all_below_gives_none {α : Type} [LinearOrder α] (energy_db : List α)
    (sample_rate : ℚ) (frame_length : ℕ) (threshold_db : α) (min_frames : ℕ)
    (h : ∀ e ∈ energy_db, e ≤ threshold_db) :
    detect_speech_end energy_db sample_rate frame_length threshold_db min_frames = none :=
  detect_eq_none_of_loop _ _ _ _ _
    (detectLoop_none _ _ _ (fun j _ => aboveFn_all_false energy_db threshold_db h j))

/-- Witness for C6 on a fully silent five-frame profile. -/
theorem c6_all_below_gives_none_witness :
    detect_speech_end [(-50 : ℚ), -50, -50, -50, -50] 16000 160 (-40 : ℚ) 4 = none :=
  c6_all_below_gives_none _ _ _ _ _ (by decide)

/-- C10: the reverse scan terminates: one loop iteration either returns, or
recurses with the scan index `scanNext a i`, which is strictly smaller than
the current index `i` (by one when skipping a below-threshold frame, and to
one before the run's start when a run is examined and discarded). -/
theorem c10_scan_strictly_decreases (a : ℕ → Bool) (mf i : ℕ) :
    scanNext a i < (i : ℤ) ∧
    detectLoop a mf (i + 1) =
      (if a i = true ∧ mf ≤ i - runStart a i + 1 then some i
       else detectLoop a mf (scanNext a i + 1).toNat) := by
  constructor
  · unfold scanNext
    split
    · have := runStart_le a i
      omega
    · omega
  · rw [detectLoop_succ]
    by_cases ha : a i = true
    · by_cases hl : mf ≤ i - runStart a i + 1
      · rw [if_pos ha, if_pos hl, if_pos ⟨ha, hl⟩]
      · rw [if_pos ha, if_neg hl, if_neg (fun hc => hl hc.2)]
        congr 1
        unfold scanNext
        rw [if_pos ha]
        omega
    · rw [if_neg ha, if_neg (fun hc => ha hc.1)]
      congr 1
      unfold scanNext
      rw [if_neg ha]
      omega

/-- C4: a profile whose only above-threshold frames form one contiguous run
of length exactly `min_frames` at the very end makes the detector return
that run's end, `(last frame index + frame_length) / sample_rate * 1000`;
the boundary case run length = `min_frames` succeeds. -/
theorem c4_exact_min_run_at_end {α : Type} [LinearOrder α] (energy_db : List α)
    (sample_rate : ℚ) (frame_length : ℕ) (threshold_db : α) (min_frames : ℕ)
    (hmf : 0 < min_frames) (hlen : min_frames ≤ energy_db.length)
    (habove : ∀ j, j < energy_db.length → energy_db.length - min_frames ≤ j →
      aboveFn energy_db threshold_db j = true)
    (hbelow : ∀ j, j < energy_db.length - min_frames →
      aboveFn energy_db threshold_db j = false) :
    detect_speech_end energy_db sample_rate frame_length threshold_db min_frames
      = some (((energy_db.length - 1 + frame_length : ℕ) : ℚ) / sample_rate * 1000) := by
  have hrs : runStart (aboveFn energy_db threshold_db) (energy_db.length - 1)
      = energy_db.length - min_frames := by
    apply runStart_eq_run
    · by_cases h0 : energy_db.length - min_frames = 0
      · exact Or.inl h0
      · exact Or.inr (hbelow (energy_db.length - min_frames - 1) (by omega))
    · omega
    · intro j hj hsj
      exact habove j (by omega) hsj
  have hq : qualb (aboveFn energy_db threshold_db) min_frames (energy_db.length - 1) = true := by
    have h1 : aboveFn energy_db threshold_db (energy_db.length - 1) = true :=
      habove (energy_db.length - 1) (by omega) (by omega)
    simp [qualb, h1, hrs]
    omega
  apply detect_eq_some _ _ _ _ _ _ hlen
  apply detectLoop_find _ min_frames energy_db.length (energy_db.length - 1) (by omega) hq
  intro j2 h2 hj2
  exact absurd h2 (by omega)

/-- Witness for C4: two silent frames then exactly four speech frames. -/
theorem c4_exact_min_run_at_end_witness :
    detect_speech_end [(-50 : ℚ), -50, 0, 0, 0, 0] 16000 160 (-40 : ℚ) 4
      = some (((List.length [(-50 : ℚ), -50, 0, 0, 0, 0] - 1 + 160 : ℕ) : ℚ) / 16000 * 1000) :=
  c4_exact_min_run_at_end [(-50 : ℚ), -50, 0, 0, 0, 0] 16000 160 (-40 : ℚ) 4
    (by decide) (by decide) (by decide) (by decide)

/-- C1: a trailing maximal run shorter than `min_frames`, preceded by a last
qualifying maximal run ending at `j0`, makes the detector return the earlier
run's end `(j0 + frame_length) / sample_rate * 1000` - not "not found" and
not the timestamp of the short trailing run; after rejecting the short run
the scan resumes just before that run's start. -/
theorem c1_skip_short_trailing_run {α : Type} [LinearOrder α] (energy_db : List α)
    (sample_rate : ℚ) (frame_length : ℕ) (threshold_db : α) (min_frames j0 s1 : ℕ)
    (hsr : 0 < sample_rate)
    (hs1 : s1 < energy_db.length)
    (hs1pos : 0 < s1)
    (htrail : ∀ j, j < energy_db.length → s1 ≤ j → aboveFn energy_db threshold_db j = true)
    (hgap : aboveFn energy_db threshold_db (s1 - 1) = false)
    (hshort : energy_db.length - s1 < min_frames)
    (hj0 : j0 < s1)
    (hq : qualb (aboveFn energy_db threshold_db) min_frames j0 = true)
    (hlast : ∀ j2, j2 < s1 → j0 < j2 →
      qualb (aboveFn energy_db threshold_db) min_frames j2 = false) :
    detect_speech_end energy_db sample_rate frame_length threshold_db min_frames
      = some (((j0 + frame_length : ℕ) : ℚ) / sample_rate * 1000) ∧
    ((j0 + frame_length : ℕ) : ℚ) / sample_rate * 1000
      ≠ ((energy_db.length - 1 + frame_length : ℕ) : ℚ) / sample_rate * 1000 ∧
    detectLoop (aboveFn energy_db threshold_db) min_frames energy_db.length
      = detectLoop (aboveFn energy_db threshold_db) min_frames s1 := by
  have hq' : aboveFn energy_db threshold_db j0 = true ∧
      min_frames ≤ j0 - runStart (aboveFn energy_db threshold_db) j0 + 1 := by
    simpa [qualb] using hq
  have hrsle := runStart_le (aboveFn energy_db threshold_db) j0
  have hguard : min_frames ≤ energy_db.length := by omega
  have hnoqual : ∀ j2, j2 < energy_db.length → j0 < j2 →
      qualb (aboveFn energy_db threshold_db) min_frames j2 = false := by
    intro j2 h2n h02
    by_cases h2s : j2 < s1
    · exact hlast j2 h2s h02
    · push_neg at h2s
      have ha2 : aboveFn energy_db threshold_db j2 = true := htrail j2 h2n h2s
      have hrs2 : runStart (aboveFn energy_db threshold_db) j2 = s1 := by
        apply runStart_eq_run
        · exact Or.inr hgap
        · exact h2s
        · intro j hj hsj
          exact htrail j (by omega) hsj
      simp [qualb, ha2, hrs2]
      omega
  refine ⟨?_, ?_, ?_⟩
  · apply detect_eq_some _ _ _ _ _ _ hguard
    exact detectLoop_find _ min_frames energy_db.length j0 (by omega) hq hnoqual
  · have hne : j0 + frame_length ≠ energy_db.length - 1 + frame_length := by omega
    intro heq
    apply hne
    have heq2 := mul_right_cancel₀ (show (1000 : ℚ) ≠ 0 by norm_num) heq
    rw [div_eq_mul_inv, div_eq_mul_inv] at heq2
    have heq3 := mul_right_cancel₀ (inv_ne_zero (ne_of_gt hsr)) heq2
    exact_mod_cast heq3
  · have hlast' : energy_db.length = (energy_db.length - 1) + 1 := by omega
    have hrsN : runStart (aboveFn energy_db threshold_db) (energy_db.length - 1) = s1 := by
      apply runStart_eq_run
      · exact Or.inr hgap
      · omega
      · intro j hj hsj
        exact htrail j (by omega) hsj
    have haN : aboveFn energy_db threshold_db (energy_db.length - 1) = true :=
      htrail (energy_db.length - 1) (by omega) (by omega)
    rw [hlast', detectLoop_succ, if_pos haN, hrsN,
      if_neg (by omega : ¬ min_frames ≤ energy_db.length - 1 - s1 + 1)]

/-- Witness for C1: a four-frame qualifying run, a silent gap, then a short
one-frame trailing run. -/
theorem c1_skip_short_trailing_run_witness :
    detect_speech_end [(0 : ℚ), 0, 0, 0, -50, 0] 16000 160 (-40 : ℚ) 4
      = some (((3 + 160 : ℕ) : ℚ) / 16000 * 1000) ∧
    ((3 + 160 : ℕ) : ℚ) / 16000 * 1000
      ≠ ((List.length [(0 : ℚ), 0, 0, 0, -50, 0] - 1 + 160 : ℕ) : ℚ) / 16000 * 1000 ∧
    detectLoop (aboveFn [(0 : ℚ), 0, 0, 0, -50, 0] (-40)) 4
        (List.length [(0 : ℚ), 0, 0, 0, -50, 0])
      = detectLoop (aboveFn [(0 : ℚ), 0, 0, 0, -50, 0] (-40)) 4 5 :=
  c1_skip_short_trailing_run [(0 : ℚ), 0, 0, 0, -50, 0] 16000 160 (-40 : ℚ) 4 3 5
    (by decide) (by decide) (by decide) (by decide) (by decide) (by decide) (by decide)
    (by decide) (by decide)

/-! Concrete evaluations used by the framer/pipeline claims. -/

theorem fl_100_10 : frame_length_of 100 10 = 1 := by
  norm_num [frame_length_of, roundHalfEven, Int.toNat_ofNat]

theorem fl_200_10 : frame_length_of 200 10 = 2 := by
  norm_num [frame_length_of, roundHalfEven]
  rfl

theorem rolling_energy_ones : rolling_energy [(1 : ℚ), 1, 1, 1] 1 = [1, 1, 1, 1] := by
  norm_num [rolling_energy, convValid, convFull, List.range_succ]

theorem rolling_energy_zeros : rolling_energy [(0 : ℚ), 0, 0, 0] 1 = [0, 0, 0, 0] := by
  norm_num [rolling_energy, convValid, convFull, List.range_succ]

theorem rolling_energy_single2 : rolling_energy [(2 : ℚ)] 2 = [2, 2] := by
  norm_num [rolling_energy, convValid, convFull, List.range_succ]

theorem roll_db_ones :
    rolling_energy_db [(1 : ℚ), 1, 1, 1] 100 10
      = some (List.map toDb [(1 : ℚ), 1, 1, 1], 1) := by
  simp only [rolling_energy_db, fl_100_10, rolling_energy_ones]

theorem roll_db_zeros :
    rolling_energy_db [(0 : ℚ), 0, 0, 0] 100 10
      = some (List.map toDb [(0 : ℚ), 0, 0, 0], 1) := by
  simp only [rolling_energy_db, fl_100_10, rolling_energy_zeros]

theorem roll_db_single2 :
    rolling_energy_db [(2 : ℚ)] 200 10 = some (List.map toDb [(2 : ℚ), 2], 2) := by
  simp only [rolling_energy_db, fl_200_10, rolling_energy_single2]

theorem above_ones :
    ∀ j, aboveFn (List.map toDb [(1 : ℚ), 1, 1, 1]) (-40 : ℝ) j = decide (j < 4) := by
  have h1 : (-40 : ℝ) < toDb 1 := toDb_gt_neg40 1 (by push_cast; norm_num)
  intro j
  match j with
  | 0 => simp [aboveFn, h1]
  | 1 => simp [aboveFn, h1]
  | 2 => simp [aboveFn, h1]
  | 3 => simp [aboveFn, h1]
  | j + 4 =>
    rw [aboveFn_out_of_range _ _ _ (by simp)]
    symm
    simp only [decide_eq_false_iff_not]
    omega

theorem above_zeros :
    ∀ j, aboveFn (List.map toDb [(0 : ℚ), 0, 0, 0]) (-40 : ℝ) j = false := by
  have h0 : ¬ ((-40 : ℝ) < toDb 0) := toDb_le_neg40 0 (by push_cast; norm_num)
  intro j
  match j with
  | 0 => simp [aboveFn, h0]
  | 1 => simp [aboveFn, h0]
  | 2 => simp [aboveFn, h0]
  | 3 => simp [aboveFn, h0]
  | j + 4 => exact aboveFn_out_of_range _ _ _ (by simp)

theorem above_single2 :
    ∀ j, aboveFn (List.map toDb [(2 : ℚ), 2]) (-40 : ℝ) j = decide (j < 2) := by
  have h2 : (-40 : ℝ) < toDb 2 := toDb_gt_neg40 2 (by push_cast; norm_num)
  intro j
  match j with
  | 0 => simp [aboveFn, h2]
  | 1 => simp [aboveFn, h2]
  | j + 2 =>
    rw [aboveFn_out_of_range _ _ _ (by simp)]
    symm
    simp only [decide_eq_false_iff_not]
    omega

theorem loop_ones :
    detectLoop (aboveFn (List.map toDb [(1 : ℚ), 1, 1, 1]) (-40 : ℝ)) 4 4 = some 3 := by
  rw [detectLoop_congr _ (fun j => decide (j < 4)) above_ones 4 4]
  exact detectLoop_find _ 4 4 3 (by omega) (by decide) (by decide)

theorem loop_single2 :
    detectLoop (aboveFn (List.map toDb [(2 : ℚ), 2]) (-40 : ℝ)) 2 2 = some 1 := by
  rw [detectLoop_congr _ (fun j => decide (j < 2)) above_single2 2 2]
  exact detectLoop_find _ 2 2 1 (by omega) (by decide) (by decide)

theorem det_ones :
    detect_speech_end (List.map toDb [(1 : ℚ), 1, 1, 1]) ((100 : ℕ) : ℚ) 1 (-40 : ℝ) 4
      = some (((3 + 1 : ℕ) : ℚ) / ((100 : ℕ) : ℚ) * 1000) := by
  apply detect_eq_some
  · simp
  · exact loop_ones

theorem det_zeros :
    detect_speech_end (List.map toDb [(0 : ℚ), 0, 0, 0]) ((100 : ℕ) : ℚ) 1 (-40 : ℝ) 4
      = none :=
  detect_eq_none_of_loop _ _ _ _ _ (detectLoop_none _ _ _ (fun j _ => above_zeros j))

/-! Claims about the energy framer. -/

/-- C2 counterexample: the one-sample signal `[2]` with frame length 2 is
shorter than one frame, yet its energy profile has two entries, not zero. -/
theorem c2_profile_length_counterexample :
    List.length [(2 : ℚ)] < frame_length_of 200 10 ∧
    rolling_energy_db [(2 : ℚ)] 200 10 = some (List.map toDb [(2 : ℚ), 2], 2) ∧
    (List.map toDb [(2 : ℚ), 2]).length = 2 ∧
    (List.map toDb [(2 : ℚ), 2]).length ≠ 0 := by
  refine ⟨?_, roll_db_single2, by simp, by simp⟩
  rw [fl_200_10]
  decide

/-- C2 (amended): for every nonempty signal the profile produced by
`rolling_energy_db` has `max(len, frame_length) - min(len, frame_length) + 1`
entries (numpy's `valid` convolution swaps a shorter first argument); when
the signal has at least `frame_length` samples this is
`len - frame_length + 1`.  A signal shorter than one frame yields a
NON-empty profile, and the empty signal makes the framing raise. -/
theorem c2_profile_length (signal : List ℚ) (sample_rate : ℕ) (frame_ms : ℚ)
    (p : List ℝ) (fl : ℕ)
    (h : rolling_energy_db signal sample_rate frame_ms = some (p, fl)) :
    p.length = max signal.length fl - min signal.length fl + 1 ∧
    (fl ≤ signal.length → p.length = signal.length - fl + 1) := by
  obtain ⟨hne, hfl, hp⟩ := rolling_energy_db_some signal sample_rate frame_ms p fl h
  have hfl1 : 1 ≤ fl := hfl ▸ frame_length_of_pos sample_rate frame_ms
  have hlen : p.length = max signal.length fl - min signal.length fl + 1 := by
    rw [hp, List.length_map, rolling_energy_length signal fl hne hfl1]
  refine ⟨hlen, fun hfit => ?_⟩
  rw [hlen]
  omega

/-- Witness for C2 (amended) on a four-sample signal with frame length 1. -/
theorem c2_profile_length_witness :
    (List.map toDb [(1 : ℚ), 1, 1, 1]).length
        = max (List.length [(1 : ℚ), 1, 1, 1]) 1 - min (List.length [(1 : ℚ), 1, 1, 1]) 1 + 1 ∧
    (1 ≤ List.length [(1 : ℚ), 1, 1, 1] →
      (List.map toDb [(1 : ℚ), 1, 1, 1]).length = List.length [(1 : ℚ), 1, 1, 1] - 1 + 1) :=
  c2_profile_length [(1 : ℚ), 1, 1, 1] 100 10 _ 1 roll_db_ones

/-- C3 counterexample: for the one-sample signal `[2]` (shorter than the
two-sample frame) the profile is non-empty and the detector, with
`min_frames = 2 ≥ 1`, returns a timestamp rather than "not found". -/
theorem c3_short_signal_counterexample :
    List.length [(2 : ℚ)] < frame_length_of 200 10 ∧ (1 : ℕ) ≤ 2 ∧
    rolling_energy_db [(2 : ℚ)] 200 10 = some (List.map toDb [(2 : ℚ), 2], 2) ∧
    detect_speech_end (List.map toDb [(2 : ℚ), 2]) 200 2 (-40 : ℝ) 2
      = some (((1 + 2 : ℕ) : ℚ) / 200 * 1000) ∧
    (List.map toDb [(2 : ℚ), 2]).length ≠ 0 := by
  refine ⟨?_, by omega, roll_db_single2, ?_, by simp⟩
  · rw [fl_200_10]
    decide
  · apply detect_eq_some
    · simp
    · exact loop_single2

/-- C3 (amended): a nonempty signal with fewer samples than `frame_length`
yields a profile of `frame_length - len + 1` entries - in particular a
non-empty one, on which the detector behaves per its ordinary contract
instead of returning "not found" unconditionally. -/
theorem c3_short_signal_profile (signal : List ℚ) (sample_rate : ℕ) (frame_ms : ℚ)
    (p : List ℝ) (fl : ℕ)
    (h : rolling_energy_db signal sample_rate frame_ms = some (p, fl))
    (hshort : signal.length < fl) :
    p.length = fl - signal.length + 1 ∧ p.length ≠ 0 := by
  obtain ⟨hne, hfl, hp⟩ := rolling_energy_db_some signal sample_rate frame_ms p fl h
  have hfl1 : 1 ≤ fl := hfl ▸ frame_length_of_pos sample_rate frame_ms
  have hlen : p.length = max signal.length fl - min signal.length fl + 1 := by
    rw [hp, List.length_map, rolling_energy_length signal fl hne hfl1]
  constructor
  · rw [hlen]
    omega
  · rw [hlen]
    omega

/-- Witness for C3 (amended) on the one-sample signal with frame length 2. -/
theorem c3_short_signal_profile_witness :
    (List.map toDb [(2 : ℚ), 2]).length = 2 - List.length [(2 : ℚ)] + 1 ∧
    (List.map toDb [(2 : ℚ), 2]).length ≠ 0 :=
  c3_short_signal_profile [(2 : ℚ)] 200 10 _ 2 roll_db_single2 (by decide)

/-- C9: when the detector returns a timestamp on a profile produced by
`rolling_energy_db` from a signal with at least `frame_length` samples, that
timestamp is non-negative and at most the signal's total duration
`len / sample_rate * 1000`. -/
theorem c9_result_within_duration (signal : List ℚ) (sample_rate : ℕ) (frame_ms : ℚ)
    (p : List ℝ) (fl : ℕ) (threshold_db : ℝ) (min_frames : ℕ) (ms : ℚ)
    (hsr : 0 < sample_rate)
    (hroll : rolling_energy_db signal sample_rate frame_ms = some (p, fl))
    (hfit : fl ≤ signal.length)
    (hdet : detect_speech_end p ((sample_rate : ℕ) : ℚ) fl threshold_db min_frames = some ms) :
    0 ≤ ms ∧ ms ≤ (signal.length : ℚ) / ((sample_rate : ℕ) : ℚ) * 1000 := by
  obtain ⟨hne, hfl, hp⟩ := rolling_energy_db_some signal sample_rate frame_ms p fl hroll
  have hfl1 : 1 ≤ fl := hfl ▸ frame_length_of_pos sample_rate frame_ms
  have hplen : p.length = signal.length - fl + 1 := by
    rw [hp, List.length_map, rolling_energy_length signal fl hne hfl1]
    omega
  obtain ⟨j, hj, hms⟩ := detect_some_inv p _ fl threshold_db min_frames ms hdet
  have hsrQ : (0 : ℚ) < ((sample_rate : ℕ) : ℚ) := by exact_mod_cast hsr
  have hjfl : j + fl ≤ signal.length := by omega
  constructor
  · rw [hms]
    positivity
  · rw [hms]
    have hc : ((j + fl : ℕ) : ℚ) ≤ (signal.length : ℚ) := by exact_mod_cast hjfl
    have hd : ((j + fl : ℕ) : ℚ) / ((sample_rate : ℕ) : ℚ)
        ≤ (signal.length : ℚ) / ((sample_rate : ℕ) : ℚ) :=
      (div_le_div_iff_of_pos_right hsrQ).mpr hc
    exact mul_le_mul_of_nonneg_right hd (by norm_num)

/-- Witness for C9 on a four-sample all-ones signal at 100 Hz. -/
theorem c9_result_within_duration_witness :
    0 ≤ ((3 + 1 : ℕ) : ℚ) / ((100 : ℕ) : ℚ) * 1000 ∧
    ((3 + 1 : ℕ) : ℚ) / ((100 : ℕ) : ℚ) * 1000
      ≤ (List.length [(1 : ℚ), 1, 1, 1] : ℚ) / ((100 : ℕ) : ℚ) * 1000 :=
  c9_result_within_duration [(1 : ℚ), 1, 1, 1] 100 10 (List.map toDb [(1 : ℚ), 1, 1, 1]) 1
    (-40) 4 _ (by decide) roll_db_ones (by decide) det_ones

/-! Claims about the batch pipeline. -/

/-- C7: when the detector finds no speech, the pipeline loop body records the
stimulus's full duration (rounded to one decimal place) under the stimulus
key AND appends a distinct warning entry - both effects, never only one. -/
theorem c7_fallback_and_warning (key : String) (samples : List ℚ) (sr : ℕ)
    (p : List ℝ) (fl : ℕ) (d : List (String × ℚ)) (e : List String)
    (hroll : rolling_energy_db samples sr 10 = some (p, fl))
    (hdet : detect_speech_end p (sr : ℚ) fl (-40 : ℝ) 4 = none) :
    processStimulus key (Except.ok (samples, sr)) d e
      = (d ++ [(key, round1 ((samples.length : ℚ) / (sr : ℚ) * 1000))],
         e ++ [key ++ ": no speech detected"]) := by
  simp [processStimulus, hroll, hdet]

/-- Witness for C7 on a fully silent four-sample stimulus. -/
theorem c7_fallback_and_warning_witness :
    processStimulus "k" (Except.ok ([(0 : ℚ), 0, 0, 0], 100)) [] []
      = ([] ++ [("k", round1 ((List.length [(0 : ℚ), 0, 0, 0] : ℚ) / ((100 : ℕ) : ℚ) * 1000))],
         [] ++ ["k" ++ ": no speech detected"]) :=
  c7_fallback_and_warning "k" [(0 : ℚ), 0, 0, 0] 100 _ 1 [] [] roll_db_zeros det_zeros

/-- C8: a per-item failure - either a decode failure (the `Except.error`
case) or a framing failure (`rolling_energy_db` raising, i.e. returning
`none`) - is isolated: the failing item contributes exactly one error entry
carrying its key, contributes nothing to the durations, and every other item
of the corpus is processed exactly as it would be without the failing
item. -/
theorem c8_per_item_isolation (pre post : List (String × Except String (List ℚ × ℕ)))
    (key : String) (r : Except String (List ℚ × ℕ)) (emsg : String)
    (hfail : (∃ msg, r = Except.error msg ∧ emsg = msg) ∨
      (∃ samples sr, r = Except.ok (samples, sr) ∧
        rolling_energy_db samples sr 10 = none ∧ emsg = "v cannot be empty")) :
    (runPipeline (pre ++ (key, r) :: post)).1
        = (runPipeline pre).1 ++ (runPipeline post).1 ∧
    (runPipeline (pre ++ (key, r) :: post)).2
        = (runPipeline pre).2 ++ (key ++ ": " ++ emsg) :: (runPipeline post).2 := by
  have herr : itemDur key r = [] ∧ itemErrs key r = [key ++ ": " ++ emsg] := by
    rcases hfail with ⟨msg, rfl, rfl⟩ | ⟨samples, sr, rfl, hnone, rfl⟩
    · constructor <;> simp [itemDur, itemErrs, processStimulus]
    · constructor <;> simp [itemDur, itemErrs, processStimulus, hnone]
  unfold runPipeline
  rw [List.foldl_append, List.foldl_cons, pipeStep_split]
  simp only [herr.1, herr.2, List.append_nil]
  rw [foldl_pipeStep_append post]
  constructor
  · rfl
  · simp [List.append_assoc]

/-- Witness for C8: a framing failure (empty decoded signal) followed by a
healthy stimulus; the failure contributes one keyed error entry, no
duration, and the following item is still processed. -/
theorem c8_per_item_isolation_witness :
    (runPipeline [("k", Except.ok (([] : List ℚ), 100)),
        ("k2", Except.ok ([(1 : ℚ), 1, 1, 1], 100))]).1
      = (runPipeline []).1 ++ (runPipeline [("k2", Except.ok ([(1 : ℚ), 1, 1, 1], 100))]).1 ∧
    (runPipeline [("k", Except.ok (([] : List ℚ), 100)),
        ("k2", Except.ok ([(1 : ℚ), 1, 1, 1], 100))]).2
      = (runPipeline []).2 ++ ("k" ++ ": " ++ "v cannot be empty")
          :: (runPipeline [("k2", Except.ok ([(1 : ℚ), 1, 1, 1], 100))]).2 :=
  c8_per_item_isolation [] [("k2", Except.ok ([(1 : ℚ), 1, 1, 1], 100))] "k"
    (Except.ok ([], 100)) "v cannot be empty" (Or.inr ⟨[], 100, rfl, rfl, rfl⟩)

end AnalyzeStimuli
